import Mathlib

/-!
Verification of the aurora-engine-migration-tool against its specification.

The development shallowly embeds the relevant Rust modules:
* `src/parser.rs` — the snapshot decoder (`parse`, `key_type`, the storage keys);
* `src/migration.rs` — the batch splitting of `Migration::run`;
* `src/indexer.rs` — `Indexer::set_indexed_data` and the post-fetch part of
  `Indexer::handle_block`;
* `src/rpc.rs` — `Client::parse_action_argument`, the retry loop of
  `Client::commit_tx`, the `unresolved_blocks` bookkeeping of
  `Client::get_chunk_indexed_data`, and the network-event traces of the
  client's request paths.

External library calls (base64, borsh / serde deserializers of the NEAR and
aurora-engine types) are modelled as abstract decoding functions packaged in a
`Codec` structure: the embedded control flow branches on their success exactly
as the source does. Machine integers are modelled as `Nat`; the claims proved
here do not depend on overflow behaviour. Rust `HashMap` / `HashSet` values
are modelled as association lists / lists with explicit insert functions that
keep the map/set semantics (replace on duplicate key, no duplicate elements).
-/

/-! ### Storage key constants

Numeric values of `VersionPrefix::V1`, `KeyPrefix::EthConnector` and the
`EthConnectorStorageId` discriminants, from the external `aurora-engine-types`
crate. Only their concrete byte values (and in particular their distinctness)
matter to the key classifier. -/

def versionPrefixV1 : Nat := 0x7

def keyPrefixEthConnector : Nat := 0x6

def storageIdFungibleToken : Nat := 0x1

def storageIdUsedEvent : Nat := 0x2

def storageIdStatisticsCounter : Nat := 0x4

/-- Embedding of `bytes_to_key` (src/parser.rs lines 17-19). -/
def bytes_to_key (p : Nat) (bytes : List Nat) : List Nat :=
  [versionPrefixV1] ++ [p] ++ bytes

/-- Embedding of `construct_contract_key` (src/parser.rs lines 21-23). -/
def construct_contract_key (suffix : Nat) : List Nat :=
  bytes_to_key keyPrefixEthConnector [suffix]

/-- Embedding of `prefix_proof_key` (src/parser.rs lines 33-35). -/
def prefix_proof_key : List Nat :=
  construct_contract_key storageIdUsedEvent

/-- Embedding of `prefix_account_key` (src/parser.rs lines 37-42). -/
def prefix_account_key : List Nat :=
  bytes_to_key keyPrefixEthConnector [storageIdFungibleToken]

/-- Embedding of `get_statistic_key` (src/parser.rs lines 44-51). -/
def get_statistic_key : List Nat :=
  bytes_to_key keyPrefixEthConnector [storageIdStatisticsCounter]

/-- Embedding of `get_contract_key` (src/parser.rs lines 53-55). -/
def get_contract_key : List Nat :=
  construct_contract_key storageIdFungibleToken

/-- Embedding of the `KeyType` enum (src/parser.rs lines 9-15). -/
inductive KeyType where
  | Accounts (value : List Nat)
  | Contract
  | Proof (value : List Nat)
  | Statistic
  | Unknown
  deriving DecidableEq, Repr

/-- Embedding of `is_prefix_proof_key` (src/parser.rs lines 153-156):
the key is strictly longer than the proof prefix and starts with it. -/
def is_prefix_proof_key (key : List Nat) : Prop :=
  prefix_proof_key.length < key.length ∧
    key.take prefix_proof_key.length = prefix_proof_key

instance (key : List Nat) : Decidable (is_prefix_proof_key key) := by
  unfold is_prefix_proof_key; infer_instance

/-- Embedding of `is_account_prefix_key` (src/parser.rs lines 158-161). -/
def is_account_prefix_key (key : List Nat) : Prop :=
  prefix_account_key.length < key.length ∧
    key.take prefix_account_key.length = prefix_account_key

instance (key : List Nat) : Decidable (is_account_prefix_key key) := by
  unfold is_account_prefix_key; infer_instance

/-- Embedding of `key_type` (src/parser.rs lines 135-151). -/
def key_type (key : List Nat) : KeyType :=
  if is_prefix_proof_key key then
    KeyType.Proof (key.drop prefix_proof_key.length)
  else if is_account_prefix_key key then
    KeyType.Accounts (key.drop prefix_account_key.length)
  else if key = get_contract_key then
    KeyType.Contract
  else if key = get_statistic_key then
    KeyType.Statistic
  else
    KeyType.Unknown

/-- Error outcomes of the decoder; every fatal exit of `parse` (an `anyhow`
error or a panicking assert in the source) is one constructor. -/
inductive ParseErr where
  | keyDecode
  | proofUtf8
  | accountBorsh
  | balanceDecode
  | balanceBorsh
  | contractDecode
  | contractBorsh
  | counterDecode
  | u64Len
  | unknownKey
  | wrongAccountsCount
  deriving DecidableEq, Repr

/-- Embedding of `read_u64` (src/parser.rs lines 25-31); the length assert is
a fatal error, the 8 bytes are read little-endian. -/
def read_u64 (value : List Nat) : Except ParseErr Nat :=
  if value.length = 8 then
    Except.ok (value.foldr (fun b acc => b + 256 * acc) 0)
  else
    Except.error ParseErr.u64Len

/-- Embedding of the `FungibleToken` record (src/lib.rs lines 24-29). -/
structure FungibleToken where
  total_eth_supply_on_near : Nat
  total_eth_supply_on_aurora : Nat
  account_storage_usage : Nat
  deriving DecidableEq, Repr

/-- Embedding of `FungibleToken::default()`: all fields zero. -/
def FungibleToken.zero : FungibleToken := ⟨0, 0, 0⟩

/-- Embedding of `ResultValues` (src/lib.rs lines 7-11): one key/value entry of
the snapshot export, both fields base64 text. -/
structure ResultValues where
  key : String
  value : String
  deriving DecidableEq, Repr

/-- Abstract decoding environment: base64 and the borsh / utf8 deserializers
the decoder calls into external crates for. Each is a function that either
yields a decoded value or fails, exactly the interface the source consumes. -/
structure Codec where
  base64Decode : String → Option (List Nat)
  utf8String : List Nat → Option String
  accountFromBorsh : List Nat → Option (List Nat)
  weiFromBorsh : List Nat → Option Nat
  ftFromBorsh : List Nat → Option FungibleToken

/-- Association-list model of `HashMap::insert`: an existing key has its value
replaced, a new key is appended. -/
def insertA {α β : Type} [DecidableEq α] (m : List (α × β)) (k : α) (v : β) :
    List (α × β) :=
  if k ∈ m.map Prod.fst then
    m.map (fun p => if p.1 = k then (k, v) else p)
  else
    m ++ [(k, v)]

/-- Accumulator of the decode loop of `parse` (src/parser.rs lines 76-79):
the four mutable locals `proofs`, `accounts`, `accounts_counter`,
`contract_data`. -/
structure ParseAcc where
  proofs : List String
  accounts : List (List Nat × Nat)
  accounts_counter : Nat
  contract_data : FungibleToken
  deriving DecidableEq, Repr

/-- Initial accumulator values (src/parser.rs lines 76-79). -/
def initialAcc : ParseAcc := ⟨[], [], 0, FungibleToken.zero⟩

/-- Embedding of the `StateData` record (src/lib.rs lines 31-37). -/
structure StateData where
  contract_data : FungibleToken
  accounts : List (List Nat × Nat)
  accounts_counter : Nat
  proofs : List String
  deriving DecidableEq, Repr

instance {ε α : Type} [DecidableEq ε] [DecidableEq α] : DecidableEq (Except ε α)
  | Except.error a, Except.error b =>
    if h : a = b then isTrue (by rw [h])
    else isFalse (by intro hc; cases hc; exact h rfl)
  | Except.error _, Except.ok _ => isFalse (by intro hc; cases hc)
  | Except.ok _, Except.error _ => isFalse (by intro hc; cases hc)
  | Except.ok a, Except.ok b =>
    if h : a = b then isTrue (by rw [h])
    else isFalse (by intro hc; cases hc; exact h rfl)

/-- Embedding of the body of one decode-loop iteration of `parse` after the
key has been base64-decoded (src/parser.rs lines 85-113): classify the key
and handle the entry; every failed decode and the `Unknown` classification
are fatal. -/
def processKeyed (c : Codec) (st : ParseAcc) (rv : ResultValues)
    (key : List Nat) : Except ParseErr ParseAcc :=
  match key_type key with
    | KeyType.Proof value =>
      match c.utf8String value with
      | none => Except.error ParseErr.proofUtf8
      | some proof => Except.ok { st with proofs := st.proofs ++ [proof] }
    | KeyType.Accounts value =>
      match c.accountFromBorsh value with
      | none => Except.error ParseErr.accountBorsh
      | some account =>
        match c.base64Decode rv.value with
        | none => Except.error ParseErr.balanceDecode
        | some vb =>
          match c.weiFromBorsh vb with
          | none => Except.error ParseErr.balanceBorsh
          | some bal =>
            Except.ok { st with accounts := insertA st.accounts account bal }
    | KeyType.Contract =>
      match c.base64Decode rv.value with
      | none => Except.error ParseErr.contractDecode
      | some vb =>
        match c.ftFromBorsh vb with
        | none => Except.error ParseErr.contractBorsh
        | some ft => Except.ok { st with contract_data := ft }
    | KeyType.Statistic =>
      match c.base64Decode rv.value with
      | none => Except.error ParseErr.counterDecode
      | some vb =>
        match read_u64 vb with
        | Except.error e => Except.error e
        | Except.ok n => Except.ok { st with accounts_counter := n }
    | KeyType.Unknown => Except.error ParseErr.unknownKey

/-- Embedding of one iteration of the decode loop of `parse`
(src/parser.rs lines 81-114): base64-decode the key (fatal on failure), then
classify and handle the entry. -/
def processValue (c : Codec) (st : ParseAcc) (rv : ResultValues) :
    Except ParseErr ParseAcc :=
  match c.base64Decode rv.key with
  | none => Except.error ParseErr.keyDecode
  | some key => processKeyed c st rv key

/-- The decode loop over all snapshot entries, stopping at the first fatal
error (src/parser.rs lines 81-114). -/
def processValues (c : Codec) : List ResultValues → ParseAcc →
    Except ParseErr ParseAcc
  | [], st => Except.ok st
  | rv :: rest, st =>
    match processValue c st rv with
    | Except.error e => Except.error e
    | Except.ok st2 => processValues c rest st2

/-- Final acceptance step of `parse`: the
`accounts.len() == accounts_counter` assert (src/parser.rs lines 117-121,
fatal on mismatch) followed by construction of the `StateData` record
(lines 124-132). -/
def finishParse (st : ParseAcc) : Except ParseErr StateData :=
  if st.accounts.length = st.accounts_counter then
    Except.ok ⟨st.contract_data, st.accounts, st.accounts_counter, st.proofs⟩
  else
    Except.error ParseErr.wrongAccountsCount

/-- Embedding of `parse` (src/parser.rs lines 57-133), restricted to the
decoding itself (file input/output elided): run the loop over all entries,
then check the accounts-counter assert and emit the `StateData` record. -/
def parse (c : Codec) (values : List ResultValues) : Except ParseErr StateData :=
  match processValues c values initialAcc with
  | Except.error e => Except.error e
  | Except.ok st => finishParse st

/-- Concrete decoding environment for witnesses: base64 is modelled as the
identity on code points, every borsh deserializer succeeds trivially. -/
def c0 : Codec where
  base64Decode := fun s => some (s.toList.map Char.toNat)
  utf8String := fun _ => some ""
  accountFromBorsh := fun b => some b
  weiFromBorsh := fun _ => some 0
  ftFromBorsh := fun _ => some FungibleToken.zero

/-- Claim C1: for every snapshot decode input, the decoder accepts and emits a
StateData record only if the number of decoded account-balance records equals
the decoded accounts_counter value, and on any input where the decode loop
succeeds with differing values the call fails fatally with the
wrong-accounts-count error and no StateData is emitted. -/
theorem parse_accounts_counter_consistent (c : Codec) (values : List ResultValues) :
    (∀ sd : StateData, parse c values = Except.ok sd →
      sd.accounts.length = sd.accounts_counter) ∧
    (∀ st : ParseAcc, processValues c values initialAcc = Except.ok st →
      st.accounts.length ≠ st.accounts_counter →
      parse c values = Except.error ParseErr.wrongAccountsCount) := by
  constructor
  · intro sd h
    unfold parse at h
    cases hpv : processValues c values initialAcc with
    | error e =>
      rw [hpv] at h
      have h2 : (Except.error e : Except ParseErr StateData) = Except.ok sd := h
      cases h2
    | ok st =>
      rw [hpv] at h
      have h2 : finishParse st = Except.ok sd := h
      unfold finishParse at h2
      by_cases hlen : st.accounts.length = st.accounts_counter
      · rw [if_pos hlen] at h2
        cases h2
        exact hlen
      · rw [if_neg hlen] at h2
        cases h2
  · intro st hpv hne
    have h2 : parse c values = finishParse st := by
      unfold parse
      rw [hpv]
    rw [h2]
    unfold finishParse
    rw [if_neg hne]

/-- Witness for C1 at a concrete input: a snapshot consisting of a single
accounts-counter entry that sets the counter to 1 while no account record was
decoded is rejected with the wrong-accounts-count error. -/
theorem parse_accounts_counter_consistent_witness :
    parse c0 [⟨"\x07\x06\x04", "\x01\x00\x00\x00\x00\x00\x00\x00"⟩] =
      Except.error ParseErr.wrongAccountsCount :=
  (parse_accounts_counter_consistent c0
      [⟨"\x07\x06\x04", "\x01\x00\x00\x00\x00\x00\x00\x00"⟩]).2
    ⟨[], [], 1, FungibleToken.zero⟩ (by decide) (by decide)

/-- Claim C4 counterexample: the key `[0]` matches none of the recognized
structural prefixes and is classified `Unknown`, yet the decoder returns a
fatal error for it instead of ignoring it and continuing. -/
theorem parse_unknown_key_counterexample :
    key_type [0] = KeyType.Unknown ∧
    parse c0 [⟨"\x00", ""⟩] = Except.error ParseErr.unknownKey := by
  constructor
  · decide
  · decide

/-- Claim C4 (amended): for every snapshot key that matches none of the
recognized structural prefixes, the decoder classifies it as Unknown and
fails the whole decode call fatally with the unknown-key error; such a key is
not ignored and decoding does not continue. -/
theorem parse_unknown_key_is_fatal (c : Codec) (rv : ResultValues)
    (key : List Nat) (hdec : c.base64Decode rv.key = some key)
    (hk : key_type key = KeyType.Unknown) :
    (∀ st : ParseAcc, processValue c st rv = Except.error ParseErr.unknownKey) ∧
    (∀ rest : List ResultValues,
      parse c (rv :: rest) = Except.error ParseErr.unknownKey) := by
  have hpv : ∀ st : ParseAcc,
      processValue c st rv = Except.error ParseErr.unknownKey := by
    intro st
    have h2 : processValue c st rv = processKeyed c st rv key := by
      unfold processValue
      rw [hdec]
    rw [h2]
    unfold processKeyed
    rw [hk]
  refine ⟨hpv, ?_⟩
  intro rest
  unfold parse processValues
  rw [hpv initialAcc]

/-- Witness for C4 (amended) at a concrete input: a two-entry snapshot whose
first key decodes to the unrecognized key `[0]` fails with the unknown-key
error. -/
theorem parse_unknown_key_is_fatal_witness :
    parse c0 [⟨"\x00", ""⟩, ⟨"\x00", "v"⟩] = Except.error ParseErr.unknownKey :=
  (parse_unknown_key_is_fatal c0 ⟨"\x00", ""⟩ [0] (by decide) (by decide)).2
    [⟨"\x00", "v"⟩]

/-- Claim C10: the contract-totals storage key is byte-for-byte identical to
the account-balance key prefix; the classifier maps the exact prefix bytes to
`Contract`, classifies a key as `Accounts` only when it is strictly longer
than the prefix and starts with it (hence differs from the contract key), and
classifies a key as `Contract` only when it equals the contract key — so no
key is ever classified as both. -/
theorem contract_key_matches_account_key (key : List Nat) :
    get_contract_key = prefix_account_key ∧
    key_type get_contract_key = KeyType.Contract ∧
    (∀ v : List Nat, key_type key = KeyType.Accounts v →
      prefix_account_key.length < key.length ∧
      key.take prefix_account_key.length = prefix_account_key ∧
      key ≠ get_contract_key) ∧
    (key_type key = KeyType.Contract → key = get_contract_key) := by
  refine ⟨by decide, by decide, ?_, ?_⟩
  · intro v hv
    unfold key_type at hv
    split_ifs at hv with h1 h2 h3 h4
    refine ⟨h2.1, h2.2, ?_⟩
    intro hcontra
    have hlen := h2.1
    rw [hcontra] at hlen
    have : get_contract_key.length = prefix_account_key.length := by decide
    omega
  · intro hv
    unfold key_type at hv
    split_ifs at hv with h1 h2 h3 h4
    exact h3

/-- Witness for C10 at a concrete input: the key `[7, 6, 1, 9]` is classified
as an account-balance key, is strictly longer than the account prefix, starts
with it, and differs from the contract-totals key. -/
theorem contract_key_matches_account_key_witness :
    prefix_account_key.length < ([7, 6, 1, 9] : List Nat).length ∧
    ([7, 6, 1, 9] : List Nat).take prefix_account_key.length = prefix_account_key ∧
    ([7, 6, 1, 9] : List Nat) ≠ get_contract_key :=
  (contract_key_matches_account_key [7, 6, 1, 9]).2.2.1 [9] (by decide)

/-! ### Migration batching (src/migration.rs)

Embedding of the batch splitting performed by `Migration::run`
(src/migration.rs lines 135-219). The network commit of each batch is elided:
what is modelled is exactly which consecutive slices of the proofs vector and
which groups of accounts-map entries form the payload of each transaction.
The accounts map is a `HashMap`, so its iteration order is some arbitrary
permutation of its entries and its keys are distinct; the embedding therefore
takes an arbitrary association list with nodup keys. -/

/-- Embedding of `RECORDS_COUNT_PER_TX` (src/migration.rs line 14). -/
def RECORDS_COUNT_PER_TX : Nat := 750

/-- Embedding of the proofs loop of `Migration::run` (src/migration.rs lines
140-170): starting at index `i`, the slice `proofs[i..]` is the final batch if
`i + limit >= proofs.len()`, otherwise `proofs[i..i + limit]` is pushed and
the loop continues at `i + limit`. One batch is pushed per iteration, before
the exit test — a do-while loop. -/
def proof_batches_aux (proofs : List String) (i : Nat) : List (List String) :=
  if h : proofs.length ≤ i + RECORDS_COUNT_PER_TX then
    [proofs.drop i]
  else
    (proofs.drop i).take RECORDS_COUNT_PER_TX ::
      proof_batches_aux proofs (i + RECORDS_COUNT_PER_TX)
termination_by proofs.length - i
decreasing_by
  simp only [RECORDS_COUNT_PER_TX] at h ⊢
  omega

/-- The batches the proofs loop commits, in order. -/
def proof_batches (proofs : List String) : List (List String) :=
  proof_batches_aux proofs 0

/-- Embedding of the accounts loop of `Migration::run` (src/migration.rs
lines 175-203): each entry is inserted into the `accounts` buffer map; the
buffer is flushed as one batch when it reaches `limit` entries or at the last
entry, then cleared. `continue` corresponds to recursing with the grown
buffer, flushing to emitting the buffer and recursing with an empty one. -/
def account_batches_aux :
    List (String × Nat) → List (String × Nat) → List (List (String × Nat))
  | [], _ => []
  | x :: rest, buf =>
    if (insertA buf x.1 x.2).length < RECORDS_COUNT_PER_TX ∧ rest ≠ [] then
      account_batches_aux rest (insertA buf x.1 x.2)
    else
      insertA buf x.1 x.2 :: account_batches_aux rest []

/-- The batches the accounts loop commits, in order, for a given iteration
order of the accounts map. -/
def account_batches (accounts : List (String × Nat)) :
    List (List (String × Nat)) :=
  account_batches_aux accounts []

theorem insertA_not_mem {α β : Type} [DecidableEq α] (m : List (α × β))
    (k : α) (v : β) (h : k ∉ m.map Prod.fst) : insertA m k v = m ++ [(k, v)] := by
  unfold insertA
  rw [if_neg h]

theorem insertA_length_le {α β : Type} [DecidableEq α] (m : List (α × β))
    (k : α) (v : β) : (insertA m k v).length ≤ m.length + 1 := by
  unfold insertA
  split
  · simp
  · simp

theorem proof_batches_aux_flatten (n : Nat) :
    ∀ (proofs : List String) (i : Nat), proofs.length - i ≤ n →
      (proof_batches_aux proofs i).flatten = proofs.drop i := by
  induction n with
  | zero =>
    intro proofs i hn
    unfold proof_batches_aux
    rw [dif_pos (by simp only [RECORDS_COUNT_PER_TX]; omega)]
    simp
  | succ n ih =>
    intro proofs i hn
    unfold proof_batches_aux
    by_cases h : proofs.length ≤ i + RECORDS_COUNT_PER_TX
    · rw [dif_pos h]
      simp
    · rw [dif_neg h]
      rw [List.flatten_cons]
      rw [ih proofs (i + RECORDS_COUNT_PER_TX)
        (by simp only [RECORDS_COUNT_PER_TX] at h ⊢; omega)]
      have h3 := List.take_append_drop RECORDS_COUNT_PER_TX (proofs.drop i)
      rw [List.drop_drop] at h3
      exact h3

theorem proof_batches_aux_length (n : Nat) :
    ∀ (proofs : List String) (i : Nat), proofs.length - i ≤ n →
      (proof_batches_aux proofs i).length =
        max 1 ((proofs.length - i + 749) / 750) := by
  induction n with
  | zero =>
    intro proofs i hn
    unfold proof_batches_aux
    rw [dif_pos (by simp only [RECORDS_COUNT_PER_TX]; omega)]
    simp only [List.length_singleton]
    omega
  | succ n ih =>
    intro proofs i hn
    unfold proof_batches_aux
    by_cases h : proofs.length ≤ i + RECORDS_COUNT_PER_TX
    · rw [dif_pos h]
      simp only [List.length_singleton, RECORDS_COUNT_PER_TX] at h ⊢
      omega
    · rw [dif_neg h]
      rw [List.length_cons]
      rw [ih proofs (i + RECORDS_COUNT_PER_TX)
        (by simp only [RECORDS_COUNT_PER_TX] at h ⊢; omega)]
      simp only [RECORDS_COUNT_PER_TX] at h ⊢
      omega

theorem proof_batches_aux_size (n : Nat) :
    ∀ (proofs : List String) (i : Nat), proofs.length - i ≤ n →
      ∀ b ∈ proof_batches_aux proofs i, b.length ≤ RECORDS_COUNT_PER_TX := by
  induction n with
  | zero =>
    intro proofs i hn b hb
    unfold proof_batches_aux at hb
    rw [dif_pos (by simp only [RECORDS_COUNT_PER_TX]; omega)] at hb
    simp only [List.mem_singleton] at hb
    subst hb
    simp only [List.length_drop]
    omega
  | succ n ih =>
    intro proofs i hn b hb
    unfold proof_batches_aux at hb
    by_cases h : proofs.length ≤ i + RECORDS_COUNT_PER_TX
    · rw [dif_pos h] at hb
      simp only [List.mem_singleton] at hb
      subst hb
      simp only [List.length_drop]
      omega
    · rw [dif_neg h] at hb
      rcases List.mem_cons.mp hb with hb1 | hb2
      · subst hb1
        simp only [List.length_take]
        omega
      · exact ih proofs (i + RECORDS_COUNT_PER_TX)
          (by simp only [RECORDS_COUNT_PER_TX] at h ⊢; omega) b hb2

theorem nodup_parts {α β : Type} [DecidableEq α] (buf : List (α × β))
    (x : α × β) (rest : List (α × β))
    (h : ((buf ++ x :: rest).map Prod.fst).Nodup) :
    x.1 ∉ buf.map Prod.fst ∧
    (((buf ++ [x]) ++ rest).map Prod.fst).Nodup ∧
    (rest.map Prod.fst).Nodup := by
  refine ⟨?_, ?_, ?_⟩
  · intro hmem
    rw [List.map_append, List.nodup_append] at h
    exact h.2.2 hmem (by simp)
  · have hsame : (buf ++ [x]) ++ rest = buf ++ x :: rest := by simp
    rw [hsame]
    exact h
  · apply List.Nodup.sublist ?_ h
    apply List.Sublist.map
    exact (List.sublist_cons_self x rest).trans
      (List.sublist_append_right buf (x :: rest))

theorem account_batches_aux_flatten (rem : List (String × Nat)) :
    ∀ buf : List (String × Nat), ((buf ++ rem).map Prod.fst).Nodup →
      (rem = [] → account_batches_aux rem buf = []) ∧
      (rem ≠ [] → (account_batches_aux rem buf).flatten = buf ++ rem) := by
  induction rem with
  | nil =>
    intro buf _
    exact ⟨fun _ => rfl, fun hne => absurd rfl hne⟩
  | cons x rest ih =>
    intro buf h
    obtain ⟨hx, hnd2, hndr⟩ := nodup_parts buf x rest h
    have hbuf2 : insertA buf x.1 x.2 = buf ++ [x] := insertA_not_mem _ _ _ hx
    refine ⟨fun hc => absurd hc (by simp), fun _ => ?_⟩
    unfold account_batches_aux
    by_cases hcond : (insertA buf x.1 x.2).length < RECORDS_COUNT_PER_TX ∧ rest ≠ []
    · rw [if_pos hcond, hbuf2]
      rw [(ih (buf ++ [x]) hnd2).2 hcond.2]
      simp
    · rw [if_neg hcond]
      rw [List.flatten_cons, hbuf2]
      by_cases hrest : rest = []
      · subst hrest
        rw [(ih [] (by simpa using hndr)).1 rfl]
        simp
      · rw [(ih [] (by simpa using hndr)).2 hrest]
        simp

theorem account_batches_aux_length (rem : List (String × Nat)) :
    ∀ buf : List (String × Nat), ((buf ++ rem).map Prod.fst).Nodup →
      buf.length < RECORDS_COUNT_PER_TX → (buf = [] ∨ rem ≠ []) →
      (account_batches_aux rem buf).length =
        (buf.length + rem.length + 749) / 750 := by
  induction rem with
  | nil =>
    intro buf _ _ hd
    have hbuf : buf = [] := by
      rcases hd with h1 | h2
      · exact h1
      · exact absurd rfl h2
    subst hbuf
    rfl
  | cons x rest ih =>
    intro buf h hlt _
    obtain ⟨hx, hnd2, hndr⟩ := nodup_parts buf x rest h
    have hbuf2 : insertA buf x.1 x.2 = buf ++ [x] := insertA_not_mem _ _ _ hx
    have hlen2 : (insertA buf x.1 x.2).length = buf.length + 1 := by
      rw [hbuf2]
      simp
    unfold account_batches_aux
    by_cases hcond : (insertA buf x.1 x.2).length < RECORDS_COUNT_PER_TX ∧ rest ≠ []
    · rw [if_pos hcond, hbuf2]
      rw [ih (buf ++ [x]) hnd2 (by rw [← hbuf2]; exact hcond.1) (Or.inr hcond.2)]
      have hL : (buf ++ [x]).length = buf.length + 1 := by simp
      have hC : (x :: rest).length = rest.length + 1 := by simp
      rw [hL, hC]
      congr 1
      omega
    · rw [if_neg hcond]
      rw [List.length_cons]
      rw [ih [] (by simpa using hndr) (by simp [RECORDS_COUNT_PER_TX]) (Or.inl rfl)]
      rw [hlen2] at hcond
      simp only [RECORDS_COUNT_PER_TX] at hcond hlt
      by_cases hrest : rest = []
      · subst hrest
        simp only [List.length_nil, List.length_cons]
        omega
      · have h750 : buf.length + 1 = 750 := by
          rcases not_and_or.mp hcond with h1 | h2
          · omega
          · exact absurd (not_not.mp h2) hrest
        simp only [List.length_nil, List.length_cons]
        omega

theorem account_batches_aux_size (rem : List (String × Nat)) :
    ∀ buf : List (String × Nat), buf.length < RECORDS_COUNT_PER_TX →
      ∀ b ∈ account_batches_aux rem buf, b.length ≤ RECORDS_COUNT_PER_TX := by
  induction rem with
  | nil =>
    intro buf _ b hb
    simp [account_batches_aux] at hb
  | cons x rest ih =>
    intro buf hlt b hb
    have hlen2 : (insertA buf x.1 x.2).length ≤ buf.length + 1 :=
      insertA_length_le buf x.1 x.2
    unfold account_batches_aux at hb
    by_cases hcond : (insertA buf x.1 x.2).length < RECORDS_COUNT_PER_TX ∧ rest ≠ []
    · rw [if_pos hcond] at hb
      exact ih (insertA buf x.1 x.2) hcond.1 b hb
    · rw [if_neg hcond] at hb
      rcases List.mem_cons.mp hb with hb1 | hb2
      · subst hb1
        omega
      · exact ih [] (by simp [RECORDS_COUNT_PER_TX]) b hb2


/-- Claim C2 counterexample: for the empty proofs list the migration run still
commits one batch (carrying an empty proofs payload), while the claim demands
zero batches for an empty collection; the ceiling of 0 over 750 is 0. -/
theorem migration_batches_counterexample :
    proof_batches ([] : List String) = [[]] ∧
    ((([] : List String).length + 749) / 750 : Nat) = 0 := by
  constructor
  · unfold proof_batches proof_batches_aux
    rw [dif_pos (by simp [RECORDS_COUNT_PER_TX])]
    rfl
  · rfl

/-- Claim C2 (amended): for every proofs list and every accounts map of size M
(an association list with distinct keys, in any iteration order), the
migration run splits each into consecutive batches of at most 750 records
whose concatenation is exactly the original collection; the number of account
batches is the ceiling of M over 750, while the number of proof batches is
the maximum of 1 and the ceiling — an empty proofs list still produces one
(empty) batch. -/
theorem migration_run_batching (proofs : List String)
    (accounts : List (String × Nat)) (hnd : (accounts.map Prod.fst).Nodup) :
    (proof_batches proofs).flatten = proofs ∧
    (proof_batches proofs).length = max 1 ((proofs.length + 749) / 750) ∧
    (∀ b ∈ proof_batches proofs, b.length ≤ 750) ∧
    (account_batches accounts).flatten = accounts ∧
    (account_batches accounts).length = (accounts.length + 749) / 750 ∧
    (∀ b ∈ account_batches accounts, b.length ≤ 750) := by
  have hp1 := proof_batches_aux_flatten proofs.length proofs 0 (by omega)
  have hp2 := proof_batches_aux_length proofs.length proofs 0 (by omega)
  have hp3 := proof_batches_aux_size proofs.length proofs 0 (by omega)
  refine ⟨by simpa using hp1, by simpa using hp2,
    by simpa [RECORDS_COUNT_PER_TX] using hp3, ?_, ?_, ?_⟩
  · by_cases hrem : accounts = []
    · subst hrem
      rfl
    · exact (account_batches_aux_flatten accounts []
        (by simpa using hnd)).2 hrem
  · have := account_batches_aux_length accounts []
      (by simpa using hnd) (by simp [RECORDS_COUNT_PER_TX]) (Or.inl rfl)
    simpa using this
  · exact fun b hb => by
      simpa [RECORDS_COUNT_PER_TX] using
        account_batches_aux_size accounts []
          (by simp [RECORDS_COUNT_PER_TX]) b hb

/-- Witness for C2 (amended) at a concrete input: two proofs and two accounts
with distinct keys. -/
theorem migration_run_batching_witness :
    (proof_batches ["p1", "p2"]).flatten = ["p1", "p2"] ∧
    (proof_batches ["p1", "p2"]).length =
      max 1 ((["p1", "p2"].length + 749) / 750) ∧
    (∀ b ∈ proof_batches ["p1", "p2"], b.length ≤ 750) ∧
    (account_batches [("a", 1), ("b", 2)]).flatten = [("a", 1), ("b", 2)] ∧
    (account_batches [("a", 1), ("b", 2)]).length =
      (([("a", 1), ("b", 2)] : List (String × Nat)).length + 749) / 750 ∧
    (∀ b ∈ account_batches [("a", 1), ("b", 2)], b.length ≤ 750) :=
  migration_run_batching ["p1", "p2"] [("a", 1), ("b", 2)] (by decide)

/-! ### Indexer (src/indexer.rs)

Embedding of `Indexer::set_indexed_data` (src/indexer.rs lines 114-142) and of
the post-fetch phase of one `Indexer::handle_block` iteration (lines 230-297):
the height/bound computation of lines 230-241, the reorganization check of
lines 276-283 and the merge call of lines 289-297. The parts elided are pure
input acquisition (RPC fetches, whose outcomes are the parameters `blk`,
`indexed`, `unresolved`, `current_height`) and the periodic save spawn, none
of which mutate the checkpoint fields this embedding models. Hashes are
modelled as `Nat`. -/

/-- List model of `HashSet::insert` for strings: no duplicate is added. -/
def insertS (l : List String) (x : String) : List String :=
  if x ∈ l then l else l ++ [x]

/-- Embedding of `ActionResultLog` (src/rpc.rs lines 60-65). -/
structure ActionResultLog where
  accounts : List String
  proof : String
  method : String
  deriving DecidableEq, Repr

/-- Embedding of `IndexedResultLog` (src/rpc.rs lines 75-79). -/
structure IndexedResultLog where
  block_height : Nat
  actions : List ActionResultLog
  deriving DecidableEq, Repr

/-- Embedding of `IndexedData` (src/rpc.rs lines 81-86); the two `HashSet`
fields are lists without duplicates. -/
structure IndexedData where
  accounts : List String
  proofs : List String
  logs : List IndexedResultLog
  deriving DecidableEq, Repr

/-- Embedding of `IndexerData` (src/indexer.rs lines 16-25), the persisted
checkpoint. -/
structure IndexerData where
  first_block : Nat
  last_block : Nat
  last_handled_block : Nat
  current_block : Nat
  last_block_hash : Option Nat
  missed_blocks : List Nat
  data : IndexedData
  deriving DecidableEq, Repr

/-- Embedding of `Indexer::set_indexed_data` (src/indexer.rs lines 114-142):
overwrite the block bounds (`first_block` falling back to the merged height
when zero), set-union the accounts and proofs, append the logs, replace the
missed-blocks set, and store the merged block's hash. -/
def set_indexed_data (d : IndexerData) (height : Nat) (indexed : IndexedData)
    (missed_blocks : List Nat) (current_block last_block first_block : Nat)
    (block_hash : Nat) : IndexerData :=
  { first_block := if first_block = 0 then height else first_block
    last_block := last_block
    last_handled_block := last_block
    current_block := current_block
    last_block_hash := some block_hash
    missed_blocks := missed_blocks
    data :=
      { accounts := indexed.accounts.foldl insertS d.data.accounts
        proofs := indexed.proofs.foldl insertS d.data.proofs
        logs := d.data.logs ++ indexed.logs } }

/-- Embedding of the `(num_height, last_block, first_block)` computation of
`Indexer::handle_block` (src/indexer.rs lines 230-241): force-index and
forward paths advance `last_block`, the history paths target
`first_block - 1`. -/
def calc_heights (force_index : Bool) (forward_block : Option Nat)
    (last_block first_block : Nat) : Nat × Nat × Nat :=
  if force_index then
    (last_block + 1, last_block + 1, first_block)
  else
    match forward_block with
    | some fb =>
      if fb ≤ last_block + 1 then
        (first_block - 1, last_block, first_block - 1)
      else
        (last_block + 1, last_block + 1, first_block)
    | none => (first_block - 1, last_block, first_block - 1)

/-- A successfully fetched block as `handle_block` destructures it
(src/indexer.rs line 274), chunks elided (they only feed `indexed`). -/
structure FetchedBlock where
  height : Nat
  block_hash : Nat
  prev_block_hash : Nat
  deriving DecidableEq, Repr

/-- Embedding of the reorganization test of src/indexer.rs lines 276-283: a
previous hash is stored and differs from the fetched block's parent hash. -/
def reorg_detected (stored : Option Nat) (prev : Nat) : Bool :=
  match stored with
  | some h => decide (h ≠ prev)
  | none => false

/-- Embedding of the post-fetch phase of one `Indexer::handle_block`
iteration (src/indexer.rs lines 230-297) on a successfully fetched block: on
a detected reorganization only `last_block` is rolled back to
`last_handled_block` (lines 279-281) and nothing is merged; otherwise the
block is merged via `set_indexed_data` with the bounds from `calc_heights`. -/
def handle_fetched_block (d : IndexerData) (force_index : Bool)
    (forward_block : Option Nat) (blk : FetchedBlock) (indexed : IndexedData)
    (unresolved : List Nat) (current_height : Nat) : IndexerData :=
  if reorg_detected d.last_block_hash blk.prev_block_hash then
    { d with last_block := d.last_handled_block }
  else
    set_indexed_data d blk.height indexed unresolved current_height
      (calc_heights force_index forward_block d.last_block d.first_block).2.1
      (calc_heights force_index forward_block d.last_block d.first_block).2.2
      blk.block_hash

/-- Claim C3: for every indexer state with a stored last-block hash H and
every fetched block whose parent hash differs from H, the block-handler
iteration resets `last_block` to `last_handled_block` and changes nothing
else: the dataset (accounts, proofs, logs), `last_handled_block` and
`last_block_hash` (and all remaining checkpoint fields) are unchanged, and
the block's data is not merged. -/
theorem handle_block_reorg_rollback (d : IndexerData) (force_index : Bool)
    (forward_block : Option Nat) (blk : FetchedBlock) (indexed : IndexedData)
    (unresolved : List Nat) (current_height : Nat) (h : Nat)
    (hstored : d.last_block_hash = some h) (hne : h ≠ blk.prev_block_hash) :
    handle_fetched_block d force_index forward_block blk indexed unresolved
        current_height =
      { d with last_block := d.last_handled_block } ∧
    (handle_fetched_block d force_index forward_block blk indexed unresolved
        current_height).data = d.data ∧
    (handle_fetched_block d force_index forward_block blk indexed unresolved
        current_height).last_handled_block = d.last_handled_block ∧
    (handle_fetched_block d force_index forward_block blk indexed unresolved
        current_height).last_block_hash = d.last_block_hash ∧
    (handle_fetched_block d force_index forward_block blk indexed unresolved
        current_height).last_block = d.last_handled_block := by
  have hmain : handle_fetched_block d force_index forward_block blk indexed
      unresolved current_height = { d with last_block := d.last_handled_block } := by
    unfold handle_fetched_block
    rw [hstored]
    simp [reorg_detected, hne]
  refine ⟨hmain, ?_, ?_, ?_, ?_⟩ <;> rw [hmain]

/-- Concrete checkpoint used by the C3 witness. -/
def d3 : IndexerData :=
  { first_block := 2
    last_block := 10
    last_handled_block := 9
    current_block := 11
    last_block_hash := some 5
    missed_blocks := [3]
    data := { accounts := ["a"], proofs := ["p"], logs := [] } }

/-- Witness for C3 at a concrete input: stored hash 5, fetched block with
parent hash 6 — only `last_block` changes, to `last_handled_block` = 9. -/
theorem handle_block_reorg_rollback_witness :
    handle_fetched_block d3 false none ⟨11, 7, 6⟩ ⟨["b"], [], []⟩ [] 12 =
      { d3 with last_block := 9 } :=
  (handle_block_reorg_rollback d3 false none ⟨11, 7, 6⟩ ⟨["b"], [], []⟩ [] 12 5
    rfl (by decide)).1

/-- The history-path test of the height computation (src/indexer.rs lines
230-241): not force-indexing, and either no forward block is pending or the
forward block has been reached. -/
def history_path (force_index : Bool) (forward_block : Option Nat)
    (last_block : Nat) : Bool :=
  !force_index &&
    (match forward_block with
     | none => true
     | some fb => decide (fb ≤ last_block + 1))

theorem handle_fetched_block_merge (d : IndexerData) (force_index : Bool)
    (forward_block : Option Nat) (blk : FetchedBlock) (indexed : IndexedData)
    (unresolved : List Nat) (current_height : Nat)
    (hmerge : d.last_block_hash = none ∨
      d.last_block_hash = some blk.prev_block_hash) :
    handle_fetched_block d force_index forward_block blk indexed unresolved
        current_height =
      set_indexed_data d blk.height indexed unresolved current_height
        (calc_heights force_index forward_block d.last_block d.first_block).2.1
        (calc_heights force_index forward_block d.last_block d.first_block).2.2
        blk.block_hash := by
  unfold handle_fetched_block
  rcases hmerge with h0 | h1
  · rw [h0]
    simp [reorg_detected]
  · rw [h1]
    simp [reorg_detected]

/-- Concrete checkpoint used by the C5 counterexample and witness. -/
def d5 : IndexerData :=
  { first_block := 5
    last_block := 9
    last_handled_block := 9
    current_block := 0
    last_block_hash := some 1
    missed_blocks := []
    data := { accounts := [], proofs := [], logs := [] } }

/-- Claim C5 counterexample: in a run without an override height, a
history-path iteration (no force-index, no pending forward block) that merges
the fetched block at height 4 lowers `first_block` from 5 to 4 — `first_block`
does decrease, and is re-assigned on every merge rather than set exactly
once. -/
theorem first_block_decreases_counterexample :
    d5.first_block = 5 ∧
    (handle_fetched_block d5 false none ⟨4, 2, 1⟩ ⟨[], [], []⟩ [] 0).first_block
      = 4 := by
  constructor
  · rfl
  · rfl

/-- Claim C5 (amended): for a merged block fetched at the computed target
height, starting from a nonzero `first_block`: the merge leaves `first_block`
unchanged on force-index and forward-path iterations, decreases it by exactly
one on every history-path iteration (to the height just merged), and in all
cases never increases it. -/
theorem first_block_evolution (d : IndexerData) (force_index : Bool)
    (forward_block : Option Nat) (blk : FetchedBlock) (indexed : IndexedData)
    (unresolved : List Nat) (current_height : Nat)
    (hmerge : d.last_block_hash = none ∨
      d.last_block_hash = some blk.prev_block_hash)
    (hfb : d.first_block ≠ 0)
    (hh : blk.height =
      (calc_heights force_index forward_block d.last_block d.first_block).1) :
    (handle_fetched_block d force_index forward_block blk indexed unresolved
        current_height).first_block =
      (if history_path force_index forward_block d.last_block then
        d.first_block - 1
      else
        d.first_block) ∧
    (handle_fetched_block d force_index forward_block blk indexed unresolved
        current_height).first_block ≤ d.first_block := by
  have hres := handle_fetched_block_merge d force_index forward_block blk
    indexed unresolved current_height hmerge
  have hfbres : (handle_fetched_block d force_index forward_block blk indexed
      unresolved current_height).first_block =
      if (calc_heights force_index forward_block d.last_block d.first_block).2.2
          = 0 then
        blk.height
      else
        (calc_heights force_index forward_block d.last_block d.first_block).2.2 := by
    rw [hres]
    rfl
  rw [hfbres, hh]
  cases force_index with
  | false =>
    cases forward_block with
    | none =>
      have hc : calc_heights false none d.last_block d.first_block =
          (d.first_block - 1, d.last_block, d.first_block - 1) := rfl
      have hhp : history_path false none d.last_block = true := rfl
      rw [hc, hhp]
      dsimp only
      rw [ite_self, if_pos rfl]
      exact ⟨rfl, by omega⟩
    | some fb =>
      by_cases hle : fb ≤ d.last_block + 1
      · have hc : calc_heights false (some fb) d.last_block d.first_block =
            (d.first_block - 1, d.last_block, d.first_block - 1) := by
          simp [calc_heights, hle]
        have hhp : history_path false (some fb) d.last_block = true := by
          simp [history_path, hle]
        rw [hc, hhp]
        dsimp only
        rw [ite_self, if_pos rfl]
        exact ⟨rfl, by omega⟩
      · have hc : calc_heights false (some fb) d.last_block d.first_block =
            (d.last_block + 1, d.last_block + 1, d.first_block) := by
          simp [calc_heights, hle]
        have hhp : history_path false (some fb) d.last_block = false := by
          simp [history_path, hle]
        rw [hc, hhp]
        dsimp only
        rw [if_neg hfb, if_neg (by simp)]
        exact ⟨rfl, le_refl _⟩
  | true =>
    have hc : calc_heights true forward_block d.last_block d.first_block =
        (d.last_block + 1, d.last_block + 1, d.first_block) := by
      simp [calc_heights]
    have hhp : history_path true forward_block d.last_block = false := by
      simp [history_path]
    rw [hc, hhp]
    dsimp only
    rw [if_neg hfb, if_neg (by simp)]
    exact ⟨rfl, le_refl _⟩

/-- Witness for C5 (amended) at a concrete input: a history-path merge at
height 4 from `first_block` = 5 yields `first_block` = 4. -/
theorem first_block_evolution_witness :
    (handle_fetched_block d5 false none ⟨4, 2, 1⟩ ⟨[], [], []⟩ [] 0).first_block =
      (if history_path false none d5.last_block then d5.first_block - 1
       else d5.first_block) ∧
    (handle_fetched_block d5 false none ⟨4, 2, 1⟩ ⟨[], [], []⟩ [] 0).first_block ≤
      d5.first_block :=
  first_block_evolution d5 false none ⟨4, 2, 1⟩ ⟨[], [], []⟩ [] 0 (Or.inr rfl)
    (by decide) rfl

/-! ### RPC client (src/rpc.rs) -/

/-- List model of `HashSet::insert` for block heights. -/
def insertH (l : List Nat) (x : Nat) : List Nat :=
  if x ∈ l then l else l ++ [x]

/-- List model of `HashSet::remove` for block heights. -/
def removeH (l : List Nat) (x : Nat) : List Nat :=
  l.filter (fun y => decide (y ≠ x))

/-- Projection of `Client::get_chunk_indexed_data` (src/rpc.rs lines 246-368)
onto the `unresolved_blocks` set. Each entry of `fetches` is the success of
one chunk fetch of the block's chunk loop (lines 258-275): a failed fetch
inserts the block height into `unresolved_blocks` (line 273) and skips the
chunk. The transaction and receipt loops (lines 277-361) never touch
`unresolved_blocks`. After the loop the height is removed whenever present
(lines 363-366), unconditionally — also when a chunk fetch of this very call
has just failed. -/
def get_chunk_indexed_data_unresolved (unresolved : List Nat)
    (fetches : List Bool) (block_height : Nat) : List Nat :=
  let u := fetches.foldl
    (fun u ok => if ok then u else insertH u block_height) unresolved
  if block_height ∈ u then removeH u block_height else u

/-- Claim C6: evaluation of the failed-chunk bookkeeping at the failing
input. A block at height 100 with a single chunk whose fetch fails is
inserted into the unresolved set during the loop but removed again before
`get_chunk_indexed_data` returns: the returned unresolved set is empty, so
the failure is not recorded for the operator — contradicting the claim. The
second conjunct shows the height is dropped even when it was recorded as
unresolved before the call. -/
theorem chunk_failure_not_recorded :
    get_chunk_indexed_data_unresolved [] [false] 100 = [] ∧
    get_chunk_indexed_data_unresolved [100] [false] 100 = [] := by
  constructor
  · rfl
  · rfl

/-- Embedding of `RETRIES_COUNT` (src/rpc.rs line 37). -/
def RETRIES_COUNT : Nat := 10

/-- Outcome of one broadcast attempt of `Client::commit_tx` (src/rpc.rs
lines 428-443): the RPC call itself fails, or it returns a final execution
status that is a success value, an execution failure, or anything else. -/
inductive AttemptOutcome where
  | success
  | commitErr
  | failureStatus
  | otherStatus
  deriving DecidableEq, Repr

/-- Result of the commit: normal return, or the panicking assert. -/
inductive CommitResult where
  | ok
  | fatal
  deriving DecidableEq, Repr

/-- Embedding of the retry loop of `Client::commit_tx` (src/rpc.rs lines
424-455). `outcome k` is the result of broadcast attempt `k` (0-based,
`attempt` the current index). A success status returns `Ok` immediately
(line 437); any other outcome increments `retry` and loops while
`retry <= RETRIES_COUNT`; once the bound is exhausted the assert at lines
449-454 panics, modelled as `CommitResult.fatal`. The second component is
the index of the last attempt made. -/
def commit_tx_loop (outcome : Nat → AttemptOutcome) (attempt retry : Nat) :
    CommitResult × Nat :=
  if outcome attempt = AttemptOutcome.success then
    (CommitResult.ok, attempt)
  else if h : retry + 1 ≤ RETRIES_COUNT then
    commit_tx_loop outcome (attempt + 1) (retry + 1)
  else
    (CommitResult.fatal, attempt)
termination_by RETRIES_COUNT + 1 - retry
decreasing_by
  omega

/-- Embedding of `Client::commit_tx` (src/rpc.rs lines 374-456) restricted to
its retry loop: the loop starts with `retry = 0` at the first attempt. -/
def commit_tx (outcome : Nat → AttemptOutcome) : CommitResult × Nat :=
  commit_tx_loop outcome 0 0

theorem commit_tx_loop_spec (outcome : Nat → AttemptOutcome) :
    ∀ (n a r : Nat), r + n = RETRIES_COUNT →
      (a ≤ (commit_tx_loop outcome a r).2 ∧
        (commit_tx_loop outcome a r).2 ≤ a + n) ∧
      ((commit_tx_loop outcome a r).1 = CommitResult.ok ↔
        ∃ j, a ≤ j ∧ j ≤ a + n ∧ outcome j = AttemptOutcome.success) ∧
      ((commit_tx_loop outcome a r).1 = CommitResult.ok →
        outcome (commit_tx_loop outcome a r).2 = AttemptOutcome.success ∧
        ∀ j, a ≤ j → j < (commit_tx_loop outcome a r).2 →
          outcome j ≠ AttemptOutcome.success) := by
  intro n
  induction n with
  | zero =>
    intro a r hr
    by_cases ho : outcome a = AttemptOutcome.success
    · unfold commit_tx_loop
      rw [if_pos ho]
      refine ⟨⟨le_refl _, by omega⟩, ?_, ?_⟩
      · constructor
        · intro _
          exact ⟨a, le_refl _, by omega, ho⟩
        · intro _
          rfl
      · intro _
        exact ⟨ho, fun j hj1 hj2 => by omega⟩
    · unfold commit_tx_loop
      rw [if_neg ho, dif_neg (by simp only [RETRIES_COUNT] at hr ⊢; omega)]
      refine ⟨⟨le_refl _, by omega⟩, ?_, ?_⟩
      · constructor
        · intro hcontra
          simp at hcontra
        · rintro ⟨j, hj1, hj2, hjs⟩
          have hja : j = a := by omega
          subst hja
          exact absurd hjs ho
      · intro hcontra
        simp at hcontra
  | succ n ih =>
    intro a r hr
    by_cases ho : outcome a = AttemptOutcome.success
    · unfold commit_tx_loop
      rw [if_pos ho]
      refine ⟨⟨le_refl _, by omega⟩, ?_, ?_⟩
      · constructor
        · intro _
          exact ⟨a, le_refl _, by omega, ho⟩
        · intro _
          rfl
      · intro _
        exact ⟨ho, fun j hj1 hj2 => by omega⟩
    · unfold commit_tx_loop
      rw [if_neg ho, dif_pos (by omega)]
      obtain ⟨hb, hok, hfirst⟩ := ih (a + 1) (r + 1) (by omega)
      refine ⟨⟨by omega, by omega⟩, ?_, ?_⟩
      · constructor
        · intro hk
          obtain ⟨j, hj1, hj2, hjs⟩ := hok.mp hk
          exact ⟨j, by omega, by omega, hjs⟩
        · rintro ⟨j, hj1, hj2, hjs⟩
          apply hok.mpr
          have hja : j ≠ a := fun w => ho (w ▸ hjs)
          exact ⟨j, by omega, by omega, hjs⟩
      · intro hk
        obtain ⟨hs, hmin⟩ := hfirst hk
        refine ⟨hs, ?_⟩
        intro j hj1 hj2
        by_cases hja : j = a
        · subst hja
          exact ho
        · exact hmin j (by omega) hj2

/-- Claim C7: for every sequence of attempt outcomes, the commit makes at
most `RETRIES_COUNT` = 10 retries beyond the first attempt (the index of the
last attempt is at most 10, so the loop always terminates within the bound);
it returns success exactly when some attempt within the bound reports a
success status — and it stops at the first such attempt; it ends in the fatal
assert exactly when all 11 attempts fail, so a failed commit is never
silently skipped. -/
theorem commit_tx_retry_bound (outcome : Nat → AttemptOutcome) :
    (commit_tx outcome).2 ≤ RETRIES_COUNT ∧
    ((commit_tx outcome).1 = CommitResult.ok ↔
      ∃ j, j ≤ RETRIES_COUNT ∧ outcome j = AttemptOutcome.success) ∧
    ((commit_tx outcome).1 = CommitResult.fatal ↔
      ∀ j, j ≤ RETRIES_COUNT → outcome j ≠ AttemptOutcome.success) ∧
    ((commit_tx outcome).1 = CommitResult.ok →
      outcome (commit_tx outcome).2 = AttemptOutcome.success ∧
      ∀ j, j < (commit_tx outcome).2 → outcome j ≠ AttemptOutcome.success) := by
  unfold commit_tx
  obtain ⟨hb, hok, hfirst⟩ := commit_tx_loop_spec outcome RETRIES_COUNT 0 0 rfl
  refine ⟨by omega, ?_, ?_, ?_⟩
  · constructor
    · intro hk
      obtain ⟨j, hj1, hj2, hjs⟩ := hok.mp hk
      exact ⟨j, by omega, hjs⟩
    · rintro ⟨j, hj, hjs⟩
      exact hok.mpr ⟨j, by omega, by omega, hjs⟩
  · constructor
    · intro hf j hj hjs
      have hcontra : (commit_tx_loop outcome 0 0).1 = CommitResult.ok :=
        hok.mpr ⟨j, by omega, by omega, hjs⟩
      rw [hf] at hcontra
      cases hcontra
    · intro hall
      cases hres : (commit_tx_loop outcome 0 0).1 with
      | ok =>
        obtain ⟨j, hj1, hj2, hjs⟩ := hok.mp hres
        exact absurd hjs (hall j (by omega))
      | fatal => rfl
  · intro hk
    obtain ⟨hs, hmin⟩ := hfirst hk
    exact ⟨hs, fun j hj => hmin j (by omega) hj⟩

/-- Attempt sequence for the C7 witness: the third attempt succeeds. -/
def outcome2 : Nat → AttemptOutcome := fun j =>
  if j = 2 then AttemptOutcome.success else AttemptOutcome.commitErr

/-- Witness for C7 at a concrete input: with the first success at attempt
index 2, the commit returns success. -/
theorem commit_tx_retry_bound_witness :
    (commit_tx outcome2).1 = CommitResult.ok :=
  (commit_tx_retry_bound outcome2).2.1.mpr ⟨2, by decide, by decide⟩

/-- Embedding of `ACTION_METHODS` (src/rpc.rs lines 40-46). -/
def ACTION_METHODS : List String :=
  ["ft_transfer", "deposit", "ft_transfer_call", "withdraw", "finish_deposit"]

/-- Embedding of the `FtTransferArgs` payload (src/rpc.rs lines 184-189). -/
structure FtTransferArgs where
  receiver_id : String
  amount : Nat
  memo : Option String
  deriving DecidableEq, Repr

/-- Embedding of the `FtTransferCallArgs` payload (src/rpc.rs lines
199-205). -/
structure FtTransferCallArgs where
  receiver_id : String
  amount : Nat
  memo : Option String
  msg : String
  deriving DecidableEq, Repr

/-- Embedding of the `FinishDepositArgs` payload (src/rpc.rs lines
219-227). -/
structure FinishDepositArgs where
  new_owner_id : String
  amount : Nat
  proof_key : String
  relayer_id : String
  fee : Nat
  msg : Option (List Nat)
  deriving DecidableEq, Repr

/-- Abstract argument deserializers (the serde_json / borsh calls of the
external crates): each either decodes the raw argument bytes or fails. -/
structure ArgCodec where
  ftTransfer : List Nat → Option FtTransferArgs
  ftTransferCall : List Nat → Option FtTransferCallArgs
  finishDeposit : List Nat → Option FinishDepositArgs

/-- Embedding of `Client::parse_action_argument` (src/rpc.rs lines 175-242):
a fixed dispatch on the method name; a failed deserialization of a
recognized method's arguments yields the empty result (a diagnostic is
printed, no error is returned); any method outside the allow-list falls to
the catch-all arm and yields the empty result. The function is total — no
branch panics. -/
def parse_action_argument (c : ArgCodec) (method : String) (args : List Nat) :
    List String × Option String :=
  if method = "ft_transfer" then
    match c.ftTransfer args with
    | some res => ([res.receiver_id], none)
    | none => ([], none)
  else if method = "ft_transfer_call" then
    match c.ftTransferCall args with
    | some res => ([res.receiver_id], none)
    | none => ([], none)
  else if method = "withdraw" then
    ([], none)
  else if method = "finish_deposit" then
    match c.finishDeposit args with
    | some res => ([res.new_owner_id, res.relayer_id], some res.proof_key)
    | none => ([], none)
  else if method = "deposit" then
    ([], none)
  else
    ([], none)

/-- Claim C8: for every method name outside the allow-list, argument parsing
returns the empty account list and no proof without signalling an error; and
for every argument byte string on which the deserializers fail (malformed
input), parsing returns the empty result normally for every method — by
construction of the total embedding, no input panics. -/
theorem parse_action_argument_safe (c : ArgCodec) (method : String)
    (args : List Nat) :
    (method ∉ ACTION_METHODS →
      parse_action_argument c method args = ([], none)) ∧
    (c.ftTransfer args = none → c.ftTransferCall args = none →
      c.finishDeposit args = none →
      parse_action_argument c method args = ([], none)) := by
  constructor
  · intro hm
    have h1 : method ≠ "ft_transfer" := fun w => hm (by rw [w]; simp [ACTION_METHODS])
    have h2 : method ≠ "ft_transfer_call" := fun w => hm (by rw [w]; simp [ACTION_METHODS])
    have h3 : method ≠ "withdraw" := fun w => hm (by rw [w]; simp [ACTION_METHODS])
    have h4 : method ≠ "finish_deposit" := fun w => hm (by rw [w]; simp [ACTION_METHODS])
    have h5 : method ≠ "deposit" := fun w => hm (by rw [w]; simp [ACTION_METHODS])
    unfold parse_action_argument
    rw [if_neg h1, if_neg h2, if_neg h3, if_neg h4, if_neg h5]
  · intro hft hftc hfd
    unfold parse_action_argument
    by_cases h1 : method = "ft_transfer"
    · rw [if_pos h1, hft]
    · rw [if_neg h1]
      by_cases h2 : method = "ft_transfer_call"
      · rw [if_pos h2, hftc]
      · rw [if_neg h2]
        by_cases h3 : method = "withdraw"
        · rw [if_pos h3]
        · rw [if_neg h3]
          by_cases h4 : method = "finish_deposit"
          · rw [if_pos h4, hfd]
          · rw [if_neg h4]
            by_cases h5 : method = "deposit"
            · rw [if_pos h5]
            · rw [if_neg h5]

/-- Deserializer environment that fails on every input, for the C8 witness. -/
def cFail : ArgCodec where
  ftTransfer := fun _ => none
  ftTransferCall := fun _ => none
  finishDeposit := fun _ => none

/-- Witness for C8 at a concrete input: the unrecognized method name `mint`
yields the empty result without an error. -/
theorem parse_action_argument_safe_witness :
    parse_action_argument cFail "mint" [1, 2] = ([], none) :=
  (parse_action_argument_safe cFail "mint" [1, 2]).1 (by decide)

/-- Embedding of `REQUEST_TIMEOUT` (src/rpc.rs line 28), in milliseconds. -/
def REQUEST_TIMEOUT : Nat := 90

/-- Kinds of remote RPC requests the client issues. -/
inductive ReqKind where
  | blockReq
  | chunkReq
  | accessKeyReq
  | broadcastReq
  | viewReq
  deriving DecidableEq, Repr

/-- One network-relevant event of a client operation: sleeping for a number
of milliseconds, or sending a request. -/
inductive NetEvent where
  | sleepEv (ms : Nat)
  | requestEv (kind : ReqKind)
  deriving DecidableEq, Repr

/-- Trace of `Client::call` (src/rpc.rs lines 107-113): sleep
`REQUEST_TIMEOUT`, then issue the wrapped request. -/
def call_events (kind : ReqKind) : List NetEvent :=
  [NetEvent.sleepEv REQUEST_TIMEOUT, NetEvent.requestEv kind]

/-- Trace of `Client::get_block` (src/rpc.rs lines 116-139): one block
request through the delayed wrapper `Client::call`. -/
def get_block_events : List NetEvent :=
  call_events ReqKind.blockReq

/-- Trace of the chunk fetches of `Client::get_chunk_indexed_data`
(src/rpc.rs lines 258-275): one chunk request through the delayed wrapper
per chunk of the block. -/
def get_chunk_indexed_data_events (chunks : Nat) : List NetEvent :=
  (List.range chunks).flatMap (fun _ => call_events ReqKind.chunkReq)

/-- Trace of `Client::commit_tx` (src/rpc.rs lines 374-456) making
`attempts` broadcast attempts: the access-key query at lines 388-397 and
every broadcast at lines 428-432 call `self.client.call` directly, not the
delayed wrapper `Client::call`, so no sleep precedes them. -/
def commit_tx_events (attempts : Nat) : List NetEvent :=
  NetEvent.requestEv ReqKind.accessKeyReq ::
    (List.range attempts).flatMap
      (fun _ => [NetEvent.requestEv ReqKind.broadcastReq])

/-- Trace of `Client::request_view` (src/rpc.rs lines 460-483): the query at
line 476 calls `self.client.call` directly, with no preceding delay. -/
def request_view_events : List NetEvent :=
  [NetEvent.requestEv ReqKind.viewReq]

/-- Whether every request of a trace is immediately preceded by a sleep;
`prevSleep` records whether the previous event was a sleep. -/
def every_request_delayed (prevSleep : Bool) : List NetEvent → Bool
  | [] => true
  | NetEvent.sleepEv _ :: rest => every_request_delayed true rest
  | NetEvent.requestEv _ :: rest => prevSleep && every_request_delayed false rest

/-- Claim C9: evaluation of the request traces. Block and chunk fetches go
through the delayed wrapper, so each of their requests is preceded by the
fixed delay; but a read-only view request and both requests of a transaction
commit (access-key query and broadcast) are issued with no preceding delay —
contradicting the claim that every remote call is rate-limited. -/
theorem rpc_calls_not_all_delayed :
    every_request_delayed false get_block_events = true ∧
    every_request_delayed false (get_chunk_indexed_data_events 3) = true ∧
    every_request_delayed false request_view_events = false ∧
    every_request_delayed false (commit_tx_events 1) = false := by
  refine ⟨rfl, rfl, rfl, rfl⟩
